import Mathlib

/-
  Verification development for the SAM-record model of pyCommonTools
  (class `Sam` in pyCommonTools.py).

  The Python code is shallowly embedded over `List Char`:
  * `str.split(sep)` is `splitOnChar`,
  * `int(s)` is `pyInt` (an `Option Int`; Python raises ValueError on `none`),
  * `float(s)` is `pyFloat` (an `Option Dec10`, the ideal decimal value
    as an exact fraction; Python raises ValueError on `none`),
  * `re.findall(r'[A-Za-z]+|\d+', s)` is `findall`,
  * `s.rindex(':')` is `lastColonIdx` (Python raises ValueError on `none`),
  * Python's two exception types that can escape the record code,
    `IndexError` (from `record[k]`) and `ValueError` (from `int`, `float`,
    `rindex`), are the two constructors of `SamError`.

  Caveats, stated once here and in the relevant doc comments:
  * `pyInt`/`pyFloat` model the usual literal grammar (optional surrounding
    whitespace, optional sign, digits / decimal point / exponent); the exotic
    corners of CPython's parsers (underscore separators, unicode digits,
    `inf`/`nan`) are not modelled.
  * `round` on a Python float and the division `(a + b)/2` are exact for the
    integer magnitudes a SAM file can hold (below 2^53), so `middle_pos` is
    embedded as exact round-half-to-even on `(a + b)/2`.
  * Python `repr` of a float (used only when serializing a float optional
    field, which no theorem below exercises) is modelled as a plain decimal
    rendering.
-/

namespace PyCommonTools

/-- The character class `[A-Za-z]` of the CIGAR-splitting regular
expression, by code point. -/
def isAlphaChar (c : Char) : Bool :=
  (65 ≤ c.toNat && c.toNat ≤ 90) || (97 ≤ c.toNat && c.toNat ≤ 122)

/-- The character class `\d` (ASCII digits), by code point. -/
def isDigitChar (c : Char) : Bool :=
  48 ≤ c.toNat && c.toNat ≤ 57

/-- Whitespace characters stripped by Python's `int()` and `float()`:
space, tab, newline, carriage return, vertical tab, form feed. -/
def isWsChar (c : Char) : Bool :=
  c.toNat = 32 || c.toNat = 9 || c.toNat = 10 ||
  c.toNat = 13 || c.toNat = 11 || c.toNat = 12

/-- Python `str.split(sep)` for a one-character separator: split on every
occurrence, keeping empty pieces; the empty string yields `[[]]`. -/
def splitOnChar (sep : Char) : List Char → List (List Char)
  | [] => [[]]
  | c :: rest =>
    if c = sep then [] :: splitOnChar sep rest
    else
      match splitOnChar sep rest with
      | [] => [[c]]
      | h :: t => (c :: h) :: t

/-- `record.split('\t')`. -/
def splitTab (l : List Char) : List (List Char) := splitOnChar '\t' l

/-- `opt.split(':')`. -/
def splitColon (l : List Char) : List (List Char) := splitOnChar ':' l

/-- Index of the last `':'`, i.e. Python `s.rindex(':')`; `none` when the
string has no colon (Python raises ValueError). -/
def lastColonIdx : List Char → Option Nat
  | [] => none
  | c :: rest =>
    match lastColonIdx rest with
    | some i => some (i + 1)
    | none => if c = ':' then some 0 else none

/-- Decimal digits of a natural number, most significant first, driven by
explicit fuel so that the definition is structural. -/
def natReprAux : Nat → Nat → List Char
  | 0, _ => []
  | fuel + 1, n =>
    if n < 10 then [Nat.digitChar n]
    else natReprAux fuel (n / 10) ++ [Nat.digitChar (n % 10)]

/-- Canonical decimal representation of a natural number (Python `str(n)`
and f-string formatting for nonnegative `n`). -/
def natRepr (n : Nat) : List Char := natReprAux (n + 1) n

/-- Python `str(n)` / f-string formatting of an `int`. -/
def intRepr (n : Int) : List Char :=
  if n < 0 then '-' :: natRepr n.natAbs else natRepr n.natAbs

/-- Value of a digit string read in base 10. -/
def digitsVal (l : List Char) : Nat :=
  l.foldl (fun a c => a * 10 + (c.toNat - 48)) 0

/-- Strip leading and trailing whitespace (Python's numeric constructors do
this before parsing the literal). -/
def stripWs (l : List Char) : List Char :=
  ((l.dropWhile isWsChar).reverse.dropWhile isWsChar).reverse

/-- Python `int(s)` on a string: optional surrounding whitespace, optional
sign, then a nonempty run of digits; `none` models `ValueError`. -/
def pyIntCore : List Char → Option Int
  | [] => none
  | c :: ds =>
    if c = '-' then
      if ds ≠ [] ∧ ds.all isDigitChar then some (-(digitsVal ds : Int)) else none
    else if c = '+' then
      if ds ≠ [] ∧ ds.all isDigitChar then some (digitsVal ds : Int) else none
    else if (c :: ds).all isDigitChar then some (digitsVal (c :: ds) : Int)
    else none

/-- Python `int(s)`: strip whitespace, then sign and digits. -/
def pyInt (s : List Char) : Option Int := pyIntCore (stripWs s)

/-- An exact decimal value `num / den`, kept un-normalized so that every
operation is kernel-computable.  `⟨125, 10⟩` denotes 12.5.  This idealizes a
Python float by its literal's exact decimal value (the runtime would round
it to the nearest binary double). -/
structure Dec10 where
  num : Int
  den : Nat
deriving DecidableEq, Repr

/-- Python `float(s)` on a string, producing the ideal decimal value:
optional surrounding whitespace, optional sign, then
`digits [. digits] [(e|E) [sign] digits]` with at least one mantissa digit;
`none` models `ValueError`.  (`inf`, `nan` and underscore separators are not
modelled; no theorem below depends on them.) -/
def pyFloat (s : List Char) : Option Dec10 :=
  match stripWs s with
  | [] => none
  | t =>
    let (neg, u) :=
      match t with
      | '-' :: r => (true, r)
      | '+' :: r => (false, r)
      | r => (false, r)
    let mant := u.takeWhile (fun c => !(c = 'e' || c = 'E'))
    let expPart := u.dropWhile (fun c => !(c = 'e' || c = 'E'))
    let expVal : Option Int :=
      match expPart with
      | [] => some 0
      | _ :: ex =>
        match ex with
        | '-' :: ds =>
          if ds ≠ [] ∧ ds.all isDigitChar then some (-(digitsVal ds : Int)) else none
        | '+' :: ds =>
          if ds ≠ [] ∧ ds.all isDigitChar then some (digitsVal ds : Int) else none
        | ds =>
          if ds ≠ [] ∧ ds.all isDigitChar then some (digitsVal ds : Int) else none
    let ipart := mant.takeWhile (fun c => c ≠ '.')
    let rest := mant.dropWhile (fun c => c ≠ '.')
    let frac? : Option (List Char) :=
      match rest with
      | [] => some []
      | _ :: fr => if '.' ∈ fr then none else some fr
    match expVal, frac? with
    | some e, some frac =>
      if ipart.all isDigitChar ∧ frac.all isDigitChar ∧ ipart ++ frac ≠ [] then
        let m : Nat := digitsVal (ipart ++ frac)
        let num : Int := if 0 ≤ e then (m * 10 ^ e.toNat : Nat) else (m : Nat)
        let den : Nat :=
          if 0 ≤ e then 10 ^ frac.length else 10 ^ frac.length * 10 ^ (-e).toNat
        some ⟨if neg then -num else num, den⟩
      else none
    | _, _ => none

/-- One left-to-right pass of `re.findall(r'[A-Za-z]+|\d+', s)`: the state is
the token currently being scanned (`true` = letter run, `false` = digit run,
with its characters held reversed); characters in neither class are skipped
and close the current token. -/
def tokAux : List Char → Option (Bool × List Char) → List (List Char)
  | [], none => []
  | [], some (_, cur) => [cur.reverse]
  | c :: rest, none =>
    if isAlphaChar c then tokAux rest (some (true, [c]))
    else if isDigitChar c then tokAux rest (some (false, [c]))
    else tokAux rest none
  | c :: rest, some (k, cur) =>
    if isAlphaChar c then
      if k then tokAux rest (some (true, c :: cur))
      else cur.reverse :: tokAux rest (some (true, [c]))
    else if isDigitChar c then
      if k then cur.reverse :: tokAux rest (some (false, [c]))
      else tokAux rest (some (false, c :: cur))
    else cur.reverse :: tokAux rest none

/-- `re.findall(r'[A-Za-z]+|\d+', s)`: maximal letter runs and maximal digit
runs, in order; all other characters are dropped. -/
def findall (s : List Char) : List (List Char) := tokAux s none

/-- The two Python exception kinds that can escape the `Sam` code:
`indexError` from `record[k]` on a too-short list (the spec's
`MalformedRecordError`), `valueError` from `int()`, `float()` or
`str.rindex` (the spec's coercion / optional-field / operations errors). -/
inductive SamError where
  | indexError : SamError
  | valueError : SamError
deriving DecidableEq, Repr

/-- A value stored in the optional-field dictionary: Python `int`, `float`
(idealized as a rational) or `str`. -/
inductive OptValue where
  | int : Int → OptValue
  | float : Dec10 → OptValue
  | str : List Char → OptValue
deriving DecidableEq, Repr

/-- One line of a SAM file, as parsed by `Sam.__init__`: the eleven
positional fields with the same names and Python types as the source, plus
the insertion-ordered optional-field dictionary. -/
structure Sam where
  qname : List Char
  flag : Int
  rname : List Char
  left_pos : Int
  mapq : Int
  cigar : List Char
  rnext : List Char
  pnext : Int
  tlen : Int
  seq : List Char
  qual : List Char
  optional : List (List Char × OptValue)
deriving DecidableEq, Repr

/-- Python `d[k] = v` on an insertion-ordered dict held as an association
list: overwrite in place when the key exists, else append. -/
def dictInsert (d : List (List Char × OptValue)) (k : List Char) (v : OptValue) :
    List (List Char × OptValue) :=
  if d.any (fun p => p.1 = k) then
    d.map (fun p => if p.1 = k then (k, v) else p)
  else d ++ [(k, v)]

/-- `opt.split(':')[1]`, the declared type code of an optional-field token:
its second colon-separated segment.  (When the token holds at least one
colon the split has at least two segments, so the Python indexing cannot
fail; the `[]` arm is unreachable in that case.) -/
def typeCode (opt : List Char) : List Char :=
  match splitColon opt with
  | _ :: t :: _ => t
  | _ => []

/-- The body of the `read_opt` loop for one token `opt`:
`tag_and_type = opt[0:opt.rindex(':')]`, `type_ = opt.split(':')[1]`,
`value = opt[opt.rindex(':') + 1:]`, with `int`/`float` coercion when
`type_` is `i`/`f`.  A missing colon or a failed coercion is Python's
ValueError. -/
def read_opt_token (opt : List Char) : Except SamError (List Char × OptValue) :=
  match lastColonIdx opt with
  | none => .error .valueError
  | some i =>
    let tagAndType := opt.take i
    let type_ := typeCode opt
    let value := opt.drop (i + 1)
    if type_ = ['i'] then
      match pyInt value with
      | some n => .ok (tagAndType, .int n)
      | none => .error .valueError
    else if type_ = ['f'] then
      match pyFloat value with
      | some q => .ok (tagAndType, .float q)
      | none => .error .valueError
    else .ok (tagAndType, .str value)

/-- `Sam.read_opt`: fold the raw trailing tokens into the dictionary. -/
def read_opt : List (List Char) → List (List Char × OptValue) →
    Except SamError (List (List Char × OptValue))
  | [], d => .ok d
  | opt :: rest, d =>
    match read_opt_token opt with
    | .ok (k, v) => read_opt rest (dictInsert d k v)
    | .error e => .error e

/-- f-string rendering of a stored optional value (`f'{value}'`).  For a
float this is Python's shortest round-tripping decimal; it is modelled as a
plain decimal rendering (no theorem serializes a float). -/
def decFracDigits : Nat → Nat → Nat → List Char
  | 0, _, _ => []
  | fuel + 1, num, den =>
    if num = 0 then []
    else Nat.digitChar (num * 10 / den) :: decFracDigits fuel (num * 10 % den) den

/-- Decimal rendering of a decimal value, used only to model Python float
repr. -/
def floatRepr (q : Dec10) : List Char :=
  let sign : List Char := if q.num < 0 then ['-'] else []
  let n := q.num.natAbs
  let d := q.den
  let fr := decFracDigits 30 (n % d) d
  sign ++ natRepr (n / d) ++ '.' :: (if fr = [] then ['0'] else fr)

/-- f-string rendering of an optional value. -/
def formatVal : OptValue → List Char
  | .int n => intRepr n
  | .float q => floatRepr q
  | .str s => s

/-- `Sam.get_opt`: `opt_out += f'{tag_and_type}:{value}\t'` over the dict. -/
def get_opt (d : List (List Char × OptValue)) : List Char :=
  d.foldl (fun acc p => acc ++ p.1 ++ ':' :: formatVal p.2 ++ ['\t']) []

/-- The loop body of `Sam.reference_length` over the `findall` tokens:
`prev` is `cigar_split[idx-1]` (never read at `idx = 0` since `0 & 1` is
falsy), and `int(prev)` raises ValueError when `prev` is not numeric. -/
def refAux : List Char → List (List Char) → Nat → Int → Except SamError Int
  | _, [], _, acc => .ok acc
  | prev, v :: rest, idx, acc =>
    if idx % 2 = 1 ∧ v ∉ [['I'], ['S'], ['H'], ['P']] then
      match pyInt prev with
      | some n => refAux v rest (idx + 1) (acc + n)
      | none => .error .valueError
    else refAux v rest (idx + 1) acc

/-- `Sam.reference_length` as a function of the CIGAR string. -/
def refLenE (cigar : List Char) : Except SamError Int :=
  refAux [] (findall cigar) 0 0

/-- Python `round(n / 2)` for an integer `n`: round half to even (exact for
the magnitudes a SAM record can hold, where float arithmetic is exact). -/
def pyRoundHalf (n : Int) : Int :=
  if n % 2 = 0 then n / 2
  else if (n / 2) % 2 = 0 then n / 2
  else n / 2 + 1

/-- `record[k]` on the split list: `IndexError` when out of range. -/
def nth (r : List (List Char)) (k : Nat) : Except SamError (List Char) :=
  match r.get? k with
  | some v => .ok v
  | none => .error .indexError

/-- `int(record[k])` once the token is in hand: ValueError on `none`. -/
def pyIntE (s : List Char) : Except SamError Int :=
  match pyInt s with
  | some n => .ok n
  | none => .error .valueError

/-- The body of `Sam.__init__` after `record.split('\t')`, with the accesses
and `int` conversions in the source's exact order. -/
def initFields (r : List (List Char)) : Except SamError Sam := do
  let qname ← nth r 0
  let fs ← nth r 1
  let flag ← pyIntE fs
  let rname ← nth r 2
  let lps ← nth r 3
  let left_pos ← pyIntE lps
  let mqs ← nth r 4
  let mapq ← pyIntE mqs
  let cigar ← nth r 5
  let rnext ← nth r 6
  let pns ← nth r 7
  let pnext ← pyIntE pns
  let tls ← nth r 8
  let tlen ← pyIntE tls
  let seq ← nth r 9
  let qual ← nth r 10
  let optional ← read_opt (r.drop 11) []
  return { qname, flag, rname, left_pos, mapq, cigar, rnext, pnext,
           tlen, seq, qual, optional }

/-- `Sam.__init__(record)`: split on tab, then assign fields. -/
def Sam.init (record : List Char) : Except SamError Sam :=
  initFields (splitTab record)

/-- `Sam.is_reverse`: `flag & 0x10 != 0`. -/
def Sam.is_reverse (s : Sam) : Bool := Int.land s.flag 16 != 0

/-- `Sam.is_read1`: `flag & 0x40 != 0`. -/
def Sam.is_read1 (s : Sam) : Bool := Int.land s.flag 64 != 0

/-- `Sam.is_paired`: `flag & 0x1 != 0`. -/
def Sam.is_paired (s : Sam) : Bool := Int.land s.flag 1 != 0

/-- `Sam.reference_length` property. -/
def Sam.reference_length (s : Sam) : Except SamError Int := refLenE s.cigar

/-- `Sam.right_pos`: `left_pos + (reference_length - 1)`. -/
def Sam.right_pos (s : Sam) : Except SamError Int := do
  let rl ← s.reference_length
  return s.left_pos + (rl - 1)

/-- `Sam.five_prime_pos`: `right_pos` on the reverse strand, else
`left_pos` (the reference length is not even computed in that branch). -/
def Sam.five_prime_pos (s : Sam) : Except SamError Int :=
  if s.is_reverse then s.right_pos else .ok s.left_pos

/-- `Sam.three_prime_pos`: `left_pos` on the reverse strand, else
`right_pos`. -/
def Sam.three_prime_pos (s : Sam) : Except SamError Int :=
  if s.is_reverse then .ok s.left_pos else s.right_pos

/-- `Sam.middle_pos`: `round((right_pos + left_pos)/2)`. -/
def Sam.middle_pos (s : Sam) : Except SamError Int := do
  let r ← s.right_pos
  return pyRoundHalf (r + s.left_pos)

/-- `Sam.get_record`: the eleven fields joined by tabs, then a tab, the
optional-field block, and a newline. -/
def Sam.get_record (s : Sam) : List Char :=
  s.qname ++ '\t' :: intRepr s.flag ++ '\t' :: s.rname ++
  '\t' :: intRepr s.left_pos ++ '\t' :: intRepr s.mapq ++
  '\t' :: s.cigar ++ '\t' :: s.rnext ++ '\t' :: intRepr s.pnext ++
  '\t' :: intRepr s.tlen ++ '\t' :: s.seq ++ '\t' :: s.qual ++
  '\t' :: get_opt s.optional ++ ['\n']

/-! ### Spec-side definitions

Written from the specification's words, to be compared with the embedded
code: a run-length encoding is a list of (length, code) runs; its textual
form writes each length in canonical decimal followed by the code, and the
reference span sums the lengths of the runs whose code consumes reference
sequence (not insertion, soft-clip, hard-clip, padding). -/

/-- Textual form of a run-length-encoded operations string. -/
def encodeCigar : List (Nat × Char) → List Char
  | [] => []
  | (n, c) :: rs => natRepr n ++ c :: encodeCigar rs

/-- The spec's reference span: sum of run lengths whose code is not one of
insertion, soft-clip, hard-clip, padding. -/
def refSpanSpec : List (Nat × Char) → Int
  | [] => 0
  | (n, c) :: rs =>
    (if c ∈ ['I', 'S', 'H', 'P'] then 0 else (n : Int)) + refSpanSpec rs

/-- The token list `re.findall` produces on a well-formed encoding:
digit run, letter, digit run, letter, ... -/
def cigarTokens : List (Nat × Char) → List (List Char)
  | [] => []
  | (n, c) :: rs => natRepr n :: [c] :: cigarTokens rs

/-! ### Helper lemmas -/

instance {ε α : Type} [DecidableEq ε] [DecidableEq α] : DecidableEq (Except ε α) :=
  fun x y =>
    match x, y with
    | .ok a, .ok b =>
      if h : a = b then .isTrue (by rw [h])
      else .isFalse (fun hh => h (Except.ok.inj hh))
    | .error e, .error f =>
      if h : e = f then .isTrue (by rw [h])
      else .isFalse (fun hh => h (Except.error.inj hh))
    | .ok _, .error _ => .isFalse (fun hh => Except.noConfusion hh)
    | .error _, .ok _ => .isFalse (fun hh => Except.noConfusion hh)

@[simp] theorem except_ok_bind {ε α β : Type} (a : α) (k : α → Except ε β) :
    (Except.ok a : Except ε α) >>= k = k a := rfl

@[simp] theorem except_error_bind {ε α β : Type} (e : ε) (k : α → Except ε β) :
    (Except.error e : Except ε α) >>= k = Except.error e := rfl

theorem digit_not_ws {c : Char} (h : isDigitChar c = true) : isWsChar c = false := by
  simp only [isDigitChar, Bool.and_eq_true, decide_eq_true_eq] at h
  simp only [isWsChar, Bool.or_eq_false_iff, decide_eq_false_iff_not]
  omega

theorem digit_not_alpha {c : Char} (h : isDigitChar c = true) :
    isAlphaChar c = false := by
  simp only [isDigitChar, Bool.and_eq_true, decide_eq_true_eq] at h
  simp only [isAlphaChar, Bool.or_eq_false_iff, Bool.and_eq_false_iff,
    decide_eq_false_iff_not]
  omega

theorem alpha_not_digit {c : Char} (h : isAlphaChar c = true) :
    isDigitChar c = false := by
  simp only [isAlphaChar, Bool.or_eq_true, Bool.and_eq_true, decide_eq_true_eq] at h
  simp only [isDigitChar, Bool.and_eq_false_iff, decide_eq_false_iff_not]
  omega

theorem digit_ne_char {c : Char} (h : isDigitChar c = true) {d : Char}
    (hd : d.toNat < 48) : c ≠ d := by
  simp only [isDigitChar, Bool.and_eq_true, decide_eq_true_eq] at h
  intro he
  subst he
  omega

theorem digitChar_spec {m : Nat} (h : m < 10) :
    (Nat.digitChar m).toNat = m + 48 ∧ isDigitChar (Nat.digitChar m) = true := by
  interval_cases m <;> exact ⟨rfl, rfl⟩

theorem digitsVal_append (xs : List Char) (c : Char) :
    digitsVal (xs ++ [c]) = digitsVal xs * 10 + (c.toNat - 48) := by
  simp [digitsVal, List.foldl_append]

theorem natReprAux_spec :
    ∀ fuel n, n < fuel →
      digitsVal (natReprAux fuel n) = n ∧ natReprAux fuel n ≠ [] ∧
      ∀ c ∈ natReprAux fuel n, isDigitChar c = true := by
  intro fuel
  induction fuel with
  | zero => omega
  | succ f ih =>
    intro n hn
    by_cases h : n < 10
    · obtain ⟨hv, hd⟩ := digitChar_spec h
      refine ⟨?_, by simp [natReprAux, h], ?_⟩
      · simp [natReprAux, h, digitsVal, hv]
      · simp [natReprAux, h]
        exact hd
    · have hdiv : n / 10 < n := Nat.div_lt_self (by omega) (by omega)
      have hf : n / 10 < f := by omega
      obtain ⟨ihv, ihne, ihd⟩ := ih (n / 10) hf
      have hm : n % 10 < 10 := Nat.mod_lt _ (by omega)
      obtain ⟨hv, hd⟩ := digitChar_spec hm
      refine ⟨?_, by simp [natReprAux, h], ?_⟩
      · rw [natReprAux]
        simp only [h, if_false]
        rw [digitsVal_append, ihv, hv]
        omega
      · rw [natReprAux]
        simp only [h, if_false]
        intro c hc
        rcases List.mem_append.mp hc with hc | hc
        · exact ihd c hc
        · rcases List.mem_singleton.mp hc with rfl
          exact hd

theorem natRepr_digits (n : Nat) : ∀ c ∈ natRepr n, isDigitChar c = true :=
  (natReprAux_spec (n + 1) n (by omega)).2.2

theorem natRepr_ne_nil (n : Nat) : natRepr n ≠ [] :=
  (natReprAux_spec (n + 1) n (by omega)).2.1

theorem digitsVal_natRepr (n : Nat) : digitsVal (natRepr n) = n :=
  (natReprAux_spec (n + 1) n (by omega)).1

theorem dropWhile_eq_self_of_none {p : Char → Bool} {l : List Char}
    (h : ∀ c ∈ l, p c = false) : l.dropWhile p = l := by
  cases l with
  | nil => rfl
  | cons c t => simp [List.dropWhile_cons, h c (by simp)]

theorem stripWs_eq_self {l : List Char} (h : ∀ c ∈ l, isWsChar c = false) :
    stripWs l = l := by
  unfold stripWs
  rw [dropWhile_eq_self_of_none h, dropWhile_eq_self_of_none
    (fun c hc => h c (List.mem_reverse.mp hc)), List.reverse_reverse]

theorem pyIntCore_cons (c : Char) (ds : List Char) :
    pyIntCore (c :: ds) =
      if c = '-' then
        if ds ≠ [] ∧ ds.all isDigitChar then some (-(digitsVal ds : Int)) else none
      else if c = '+' then
        if ds ≠ [] ∧ ds.all isDigitChar then some (digitsVal ds : Int) else none
      else if (c :: ds).all isDigitChar then some (digitsVal (c :: ds) : Int)
      else none := rfl

theorem pyInt_natRepr (n : Nat) : pyInt (natRepr n) = some (n : Int) := by
  have hd := natRepr_digits n
  have hs : stripWs (natRepr n) = natRepr n :=
    stripWs_eq_self (fun c hc => digit_not_ws (hd c hc))
  obtain ⟨c, ds, hcons⟩ := List.exists_cons_of_ne_nil (natRepr_ne_nil n)
  have hcd : isDigitChar c = true := hd c (by rw [hcons]; simp)
  unfold pyInt
  rw [hs, hcons, pyIntCore_cons]
  rw [if_neg (digit_ne_char hcd (by decide)), if_neg (digit_ne_char hcd (by decide))]
  rw [if_pos]
  · rw [← hcons, digitsVal_natRepr]
  · rw [List.all_eq_true, ← hcons]
    exact fun c hc => hd c hc

theorem pyInt_intRepr (n : Int) : pyInt (intRepr n) = some n := by
  by_cases hn : n < 0
  · have hd := natRepr_digits n.natAbs
    unfold intRepr
    rw [if_pos hn]
    have hs : stripWs ('-' :: natRepr n.natAbs) = '-' :: natRepr n.natAbs := by
      refine stripWs_eq_self ?_
      intro c hc
      rcases List.mem_cons.mp hc with rfl | hc
      · rfl
      · exact digit_not_ws (hd c hc)
    unfold pyInt
    rw [hs, pyIntCore_cons]
    rw [if_pos rfl, if_pos ⟨natRepr_ne_nil _, List.all_eq_true.mpr (fun c hc => hd c hc)⟩]
    rw [digitsVal_natRepr]
    congr 1
    omega
  · unfold intRepr
    rw [if_neg hn, pyInt_natRepr]
    congr 1
    omega

theorem splitOnChar_ne_nil (sep : Char) (l : List Char) :
    splitOnChar sep l ≠ [] := by
  cases l with
  | nil => simp [splitOnChar]
  | cons c t =>
    rw [splitOnChar]
    by_cases h : c = sep
    · simp [h]
    · rw [if_neg h]
      rcases hs : splitOnChar sep t with _ | ⟨x, xs⟩ <;> simp

theorem splitOnChar_not_mem {sep : Char} {l : List Char} (h : sep ∉ l) :
    splitOnChar sep l = [l] := by
  induction l with
  | nil => rfl
  | cons c t ih =>
    have hc : c ≠ sep := fun he => h (he ▸ List.mem_cons_self c t)
    have ht : sep ∉ t := fun hm => h (List.mem_cons_of_mem _ hm)
    rw [splitOnChar, if_neg hc, ih ht]

theorem splitOnChar_append {sep : Char} {a : List Char} (r : List Char)
    (h : sep ∉ a) : splitOnChar sep (a ++ sep :: r) = a :: splitOnChar sep r := by
  induction a with
  | nil => simp [splitOnChar]
  | cons c t ih =>
    have hc : c ≠ sep := fun he => h (he ▸ List.mem_cons_self c t)
    have ht : sep ∉ t := fun hm => h (List.mem_cons_of_mem _ hm)
    rw [List.cons_append, splitOnChar, if_neg hc, ih ht]

theorem lastColonIdx_not_mem {l : List Char} (h : ':' ∉ l) :
    lastColonIdx l = none := by
  induction l with
  | nil => rfl
  | cons c t ih =>
    have hc : c ≠ ':' := fun he => h (he ▸ List.mem_cons_self c t)
    have ht : ':' ∉ t := fun hm => h (List.mem_cons_of_mem _ hm)
    rw [lastColonIdx, ih ht, if_neg hc]

theorem lastColonIdx_append {b : List Char} (a : List Char) (h : ':' ∉ b) :
    lastColonIdx (a ++ ':' :: b) = some a.length := by
  induction a with
  | nil => rw [List.nil_append, lastColonIdx, lastColonIdx_not_mem h, if_pos rfl]; rfl
  | cons c t ih => rw [List.cons_append, lastColonIdx, ih]; rfl

theorem take_append_cons (a : List Char) (c : Char) (b : List Char) :
    (a ++ c :: b).take a.length = a := by
  rw [List.take_append_eq_append_take, List.take_length, Nat.sub_self,
    List.take_zero, List.append_nil]

theorem drop_append_cons (a : List Char) (c : Char) (b : List Char) :
    (a ++ c :: b).drop (a.length + 1) = b := by
  have : a ++ c :: b = (a ++ [c]) ++ b := by simp
  rw [this]
  have hl : a.length + 1 = (a ++ [c]).length := by simp
  rw [hl, List.drop_left]

theorem tokAux_digits :
    ∀ (ds : List Char) (cur rest : List Char),
      (∀ x ∈ ds, isDigitChar x = true) →
      tokAux (ds ++ rest) (some (false, cur)) =
        tokAux rest (some (false, ds.reverse ++ cur)) := by
  intro ds
  induction ds with
  | nil => intro cur rest _; simp
  | cons x t ih =>
    intro cur rest h
    have hx : isDigitChar x = true := h x (by simp)
    have ht : ∀ y ∈ t, isDigitChar y = true := fun y hy => h y (by simp [hy])
    rw [List.cons_append, tokAux]
    rw [if_neg (by simp [digit_not_alpha hx]), if_pos hx]
    rw [ih (x :: cur) rest ht]
    simp

theorem tokAux_encode :
    ∀ rs : List (Nat × Char), (∀ p ∈ rs, isAlphaChar p.2 = true) →
      tokAux (encodeCigar rs) none = cigarTokens rs ∧
      ∀ cur, tokAux (encodeCigar rs) (some (true, cur)) =
        cur.reverse :: cigarTokens rs := by
  intro rs
  induction rs with
  | nil => exact fun _ => ⟨rfl, fun cur => rfl⟩
  | cons p rs ih =>
    intro h
    obtain ⟨n, c⟩ := p
    have hc : isAlphaChar c = true := h (n, c) (by simp)
    have hrs : ∀ p ∈ rs, isAlphaChar p.2 = true := fun p hp => h p (by simp [hp])
    obtain ⟨ihn, ihs⟩ := ih hrs
    have hd := natRepr_digits n
    obtain ⟨d, ds, hcons⟩ := List.exists_cons_of_ne_nil (natRepr_ne_nil n)
    have hdd : isDigitChar d = true := hd d (by rw [hcons]; simp)
    have hds : ∀ y ∈ ds, isDigitChar y = true := fun y hy =>
      hd y (by rw [hcons]; simp [hy])
    have key : tokAux (ds ++ c :: encodeCigar rs) (some (false, [d])) =
        (d :: ds) :: [c] :: cigarTokens rs := by
      rw [tokAux_digits ds [d] (c :: encodeCigar rs) hds]
      rw [tokAux, if_pos hc]
      simp only [Bool.false_eq_true, if_false]
      rw [ihs [c]]
      simp
    constructor
    · rw [encodeCigar, hcons, List.cons_append, tokAux]
      rw [if_neg (by simp [digit_not_alpha hdd]), if_pos hdd, key]
      rw [cigarTokens, hcons]
    · intro cur
      rw [encodeCigar, hcons, List.cons_append, tokAux]
      rw [if_neg (by simp [digit_not_alpha hdd]), if_pos hdd]
      simp [key, cigarTokens, hcons]

theorem findall_encodeCigar {rs : List (Nat × Char)}
    (h : ∀ p ∈ rs, isAlphaChar p.2 = true) :
    findall (encodeCigar rs) = cigarTokens rs :=
  (tokAux_encode rs h).1

theorem refAux_cons (prev v : List Char) (rest : List (List Char))
    (idx : Nat) (acc : Int) :
    refAux prev (v :: rest) idx acc =
      if idx % 2 = 1 ∧ v ∉ [['I'], ['S'], ['H'], ['P']] then
        match pyInt prev with
        | some n => refAux v rest (idx + 1) (acc + n)
        | none => .error .valueError
      else refAux v rest (idx + 1) acc := rfl

theorem singleton_mem_ops_iff (c : Char) :
    [c] ∈ [[('I' : Char)], ['S'], ['H'], ['P']] ↔ c ∈ ['I', 'S', 'H', 'P'] := by
  simp

theorem refAux_cons_some {prev : List Char} {n : Int} (hp : pyInt prev = some n)
    {v : List Char} {idx : Nat} (hc : idx % 2 = 1 ∧ v ∉ [['I'], ['S'], ['H'], ['P']])
    (rest : List (List Char)) (acc : Int) :
    refAux prev (v :: rest) idx acc = refAux v rest (idx + 1) (acc + n) := by
  rw [refAux_cons, if_pos hc, hp]

theorem refAux_cons_none {prev : List Char} (hp : pyInt prev = none)
    {v : List Char} {idx : Nat} (hc : idx % 2 = 1 ∧ v ∉ [['I'], ['S'], ['H'], ['P']])
    (rest : List (List Char)) (acc : Int) :
    refAux prev (v :: rest) idx acc = .error .valueError := by
  rw [refAux_cons, if_pos hc, hp]

theorem refAux_cigarTokens :
    ∀ (rs : List (Nat × Char)) (prev : List Char) (acc : Int) (k : Nat),
      refAux prev (cigarTokens rs) (2 * k) acc = .ok (acc + refSpanSpec rs) := by
  intro rs
  induction rs with
  | nil => intro prev acc k; simp [cigarTokens, refAux, refSpanSpec]
  | cons p rs ih =>
    intro prev acc k
    obtain ⟨n, c⟩ := p
    rw [cigarTokens, refAux_cons,
      if_neg (by simp [Nat.mul_mod_right])]
    by_cases hmem : c ∈ ['I', 'S', 'H', 'P']
    · rw [refAux_cons,
        if_neg (fun hx => hx.2 ((singleton_mem_ops_iff c).mpr hmem))]
      have h2 : 2 * k + 1 + 1 = 2 * (k + 1) := by omega
      rw [h2, ih [c] acc (k + 1)]
      rw [refSpanSpec, if_pos hmem]
      simp
    · have hne : [c] ∉ [[('I' : Char)], ['S'], ['H'], ['P']] :=
        fun hx => hmem ((singleton_mem_ops_iff c).mp hx)
      rw [refAux_cons_some (pyInt_natRepr n) ⟨by omega, hne⟩]
      have h2 : 2 * k + 1 + 1 = 2 * (k + 1) := by omega
      rw [h2, ih [c] (acc + n) (k + 1)]
      rw [refSpanSpec, if_neg hmem]
      congr 1
      ring

theorem refLenE_encodeCigar {rs : List (Nat × Char)}
    (h : ∀ p ∈ rs, isAlphaChar p.2 = true) :
    refLenE (encodeCigar rs) = .ok (refSpanSpec rs) := by
  unfold refLenE
  rw [findall_encodeCigar h]
  have := refAux_cigarTokens rs [] 0 0
  simpa using this

theorem refAux_error :
    ∀ (ts : List (List Char)) (prev : List Char) (idx : Nat) (acc : Int)
      (e : SamError), refAux prev ts idx acc = .error e → e = .valueError := by
  intro ts
  induction ts with
  | nil => intro prev idx acc e h; simp [refAux] at h
  | cons v rest ih =>
    intro prev idx acc e h
    by_cases hc : idx % 2 = 1 ∧ v ∉ [['I'], ['S'], ['H'], ['P']]
    · rcases hp : pyInt prev with _ | n
      · rw [refAux_cons_none hp hc] at h
        injection h with h2
        exact h2.symm
      · rw [refAux_cons_some hp hc] at h
        exact ih v (idx + 1) (acc + n) e h
    · rw [refAux_cons, if_neg hc] at h
      exact ih v (idx + 1) acc e h

theorem refLenE_error {cigar : List Char} {e : SamError}
    (h : refLenE cigar = .error e) : e = .valueError :=
  refAux_error (findall cigar) [] 0 0 e h

theorem pyRoundHalf_spec (n : Int) :
    (2 * pyRoundHalf n - n).natAbs ≤ 1 ∧
      (2 * pyRoundHalf n ≠ n → pyRoundHalf n % 2 = 0) := by
  unfold pyRoundHalf
  by_cases h : n % 2 = 0
  · rw [if_pos h]
    omega
  · rw [if_neg h]
    by_cases h2 : (n / 2) % 2 = 0
    · rw [if_pos h2]
      omega
    · rw [if_neg h2]
      omega

theorem typeCode_two {tag ty : List Char} (v : List Char)
    (h1 : ':' ∉ tag) (h2 : ':' ∉ ty) :
    typeCode (tag ++ ':' :: (ty ++ ':' :: v)) = ty := by
  unfold typeCode splitColon
  rw [splitOnChar_append _ h1, splitOnChar_append _ h2]

theorem typeCode_one {tag b : List Char} (h1 : ':' ∉ tag) (h2 : ':' ∉ b) :
    typeCode (tag ++ ':' :: b) = b := by
  unfold typeCode splitColon
  rw [splitOnChar_append _ h1, splitOnChar_not_mem h2]

theorem read_opt_token_eq (k v : List Char) (hv : ':' ∉ v) :
    read_opt_token (k ++ ':' :: v) =
      if typeCode (k ++ ':' :: v) = ['i'] then
        match pyInt v with
        | some n => .ok (k, .int n)
        | none => .error .valueError
      else if typeCode (k ++ ':' :: v) = ['f'] then
        match pyFloat v with
        | some q => .ok (k, .float q)
        | none => .error .valueError
      else .ok (k, .str v) := by
  unfold read_opt_token
  rw [lastColonIdx_append k hv]
  simp only [take_append_cons, drop_append_cons]

theorem read_opt_token_no_colon {opt : List Char} (h : ':' ∉ opt) :
    read_opt_token opt = .error .valueError := by
  unfold read_opt_token
  rw [lastColonIdx_not_mem h]

theorem read_opt_token_error :
    ∀ (opt : List Char) (e : SamError),
      read_opt_token opt = .error e → e = .valueError := by
  intro opt e h
  unfold read_opt_token at h
  rcases hL : lastColonIdx opt with _ | i <;> rw [hL] at h
  · injection h with h2
    exact h2.symm
  · simp only at h
    by_cases hi : typeCode opt = ['i']
    · rw [if_pos hi] at h
      rcases hp : pyInt (opt.drop (i + 1)) with _ | n <;> rw [hp] at h
      · injection h with h2
        exact h2.symm
      · exact absurd h (by simp)
    · rw [if_neg hi] at h
      by_cases hf : typeCode opt = ['f']
      · rw [if_pos hf] at h
        rcases hp : pyFloat (opt.drop (i + 1)) with _ | q <;> rw [hp] at h
        · injection h with h2
          exact h2.symm
        · exact absurd h (by simp)
      · rw [if_neg hf] at h
        exact absurd h (by simp)

theorem read_opt_error :
    ∀ (opts : List (List Char)) (d : List (List Char × OptValue)) (e : SamError),
      read_opt opts d = .error e → e = .valueError := by
  intro opts
  induction opts with
  | nil => intro d e h; simp [read_opt] at h
  | cons opt rest ih =>
    intro d e h
    rw [read_opt] at h
    rcases ht : read_opt_token opt with e' | kv <;> rw [ht] at h
    · injection h with h2
      exact h2 ▸ read_opt_token_error opt e' ht
    · exact ih _ e h

theorem pyIntE_intRepr (n : Int) : pyIntE (intRepr n) = .ok n := by
  unfold pyIntE
  rw [pyInt_intRepr]

theorem initFields_full (q fs rn lps mqs cg rx pns tls sq ql : List Char)
    (rest : List (List Char)) :
    initFields (q :: fs :: rn :: lps :: mqs :: cg :: rx :: pns :: tls ::
        sq :: ql :: rest) = (do
      let flag ← pyIntE fs
      let left_pos ← pyIntE lps
      let mapq ← pyIntE mqs
      let pnext ← pyIntE pns
      let tlen ← pyIntE tls
      let optional ← read_opt rest []
      return { qname := q, flag, rname := rn, left_pos, mapq, cigar := cg,
               rnext := rx, pnext, tlen, seq := sq, qual := ql, optional }) := rfl

/-! ### Concrete records used by the claim instances -/

/-- The spec's concrete scenario-1 line, without a trailing newline. -/
def line1 : List Char :=
  ("read1\t0\tchr1\t100\t60\t10M\t*\t0\t0\tACGTACGTAC\t**********").toList

/-- The record that parsing `line1` produces. -/
def sam1 : Sam :=
  { qname := ("read1").toList, flag := 0, rname := ("chr1").toList,
    left_pos := 100, mapq := 60, cigar := ("10M").toList, rnext := ['*'],
    pnext := 0, tlen := 0, seq := ("ACGTACGTAC").toList,
    qual := ("**********").toList, optional := [] }

/-- A line whose operations string is the `*` sentinel. -/
def lineStar : List Char := ("r\t0\tc\t100\t60\t*\t*\t0\t0\t*\t*").toList

/-- The record that parsing `lineStar` produces. -/
def samStar : Sam :=
  { qname := ['r'], flag := 0, rname := ['c'], left_pos := 100, mapq := 60,
    cigar := ['*'], rnext := ['*'], pnext := 0, tlen := 0, seq := ['*'],
    qual := ['*'], optional := [] }

/-- A line with flag 16 (reverse strand). -/
def lineRev : List Char := ("r\t16\tc\t100\t60\t10M\t*\t0\t0\t*\t*").toList

/-- The record that parsing `lineRev` produces. -/
def samRev : Sam :=
  { qname := ['r'], flag := 16, rname := ['c'], left_pos := 100, mapq := 60,
    cigar := ("10M").toList, rnext := ['*'], pnext := 0, tlen := 0,
    seq := ['*'], qual := ['*'], optional := [] }

/-- A line whose sixth field (the operations string) is empty. -/
def lineEmptyCigar : List Char := ("r\t0\tc\t1\t60\t\t*\t0\t0\tA\tB").toList

/-! ### Claim C1 -/

/-- Claim C1, counterexample: over the claimed alphabet (which includes
`=`) the sum property fails.  The `=` character matches neither `[A-Za-z]+`
nor `\d+`, so the tokenizer drops it and the run `5=` contributes nothing:
`reference_length` yields 0 where the claim demands 5. -/
theorem refLen_eq_run_dropped :
    refLenE (encodeCigar [(5, '=')]) = .ok 0 ∧
    refSpanSpec [(5, '=')] = 5 ∧
    refLenE (encodeCigar [(5, '=')]) ≠ .ok (refSpanSpec [(5, '=')]) := by
  refine ⟨rfl, rfl, ?_⟩
  decide

/-- Claim C1, amended: for every operations string that is a canonical
run-length encoding over the alphabet `{M,I,D,N,S,H,P,X}` (the claim's
alphabet minus `=`), `reference_length` equals the sum of the run lengths
of every operation whose code is not one of I, S, H, P. -/
theorem reference_length_sums_runs (rs : List (Nat × Char))
    (h : ∀ p ∈ rs, p.2 ∈ ['M', 'I', 'D', 'N', 'S', 'H', 'P', 'X']) :
    refLenE (encodeCigar rs) = .ok (refSpanSpec rs) := by
  refine refLenE_encodeCigar ?_
  intro p hp
  obtain ⟨n, c⟩ := p
  have hc := h (n, c) hp
  simp only [List.mem_cons, List.not_mem_nil, or_false] at hc
  rcases hc with rfl | rfl | rfl | rfl | rfl | rfl | rfl | rfl <;> rfl

/-- Witness for C1: the concrete scenario `5M2I3M` yields span 8. -/
theorem reference_length_sums_runs_witness :
    refLenE (encodeCigar [(5, 'M'), (2, 'I'), (3, 'M')]) =
      .ok (refSpanSpec [(5, 'M'), (2, 'I'), (3, 'M')]) ∧
    encodeCigar [(5, 'M'), (2, 'I'), (3, 'M')] = ("5M2I3M").toList ∧
    refSpanSpec [(5, 'M'), (2, 'I'), (3, 'M')] = 8 :=
  ⟨reference_length_sums_runs [(5, 'M'), (2, 'I'), (3, 'M')] (by decide),
   rfl, rfl⟩

/-! ### Claim C3 -/

/-- Claim C3, counterexample: on a parsed record with operations string `*`
the position-derived properties are not flagged undefined — they are
computed from the zero span: with left position 100, `right_pos` is the
ordinary value 99 = 100 − 1 and `middle_pos` is 100. -/
theorem star_cigar_positions_computed :
    (Sam.init lineStar).map
      (fun s => (s.reference_length, s.right_pos, s.middle_pos)) =
      .ok (.ok 0, .ok 99, .ok 100) := rfl

/-- Claim C3, amended: for a parsed record whose operations string is `*`,
`reference_length` is 0 and the position-derived properties are computed
from that zero span, so `right_pos = left_pos - 1`. -/
theorem star_cigar_zero_span (record : List Char) (s : Sam)
    (h : Sam.init record = .ok s) (hc : s.cigar = ['*']) :
    s.reference_length = .ok 0 ∧ s.right_pos = .ok (s.left_pos - 1) := by
  have h0 : s.reference_length = .ok 0 := by
    unfold Sam.reference_length
    rw [hc]
    rfl
  refine ⟨h0, ?_⟩
  unfold Sam.right_pos
  rw [h0]
  show Except.ok (s.left_pos + (0 - 1)) = Except.ok (s.left_pos - 1)
  congr 1

/-- Witness for C3 at the concrete `*` record. -/
theorem star_cigar_zero_span_witness :
    samStar.reference_length = .ok 0 ∧
    samStar.right_pos = .ok (samStar.left_pos - 1) :=
  star_cigar_zero_span lineStar samStar rfl rfl

/-! ### Claim C8 -/

/-- Claim C8, counterexample: an empty operations string on a parsed record
(treated as present — it is not `*`) is decoded without any error:
`reference_length` returns 0 instead of failing. -/
theorem empty_cigar_reference_length_ok :
    (Sam.init lineEmptyCigar).map (fun s => (s.cigar, s.reference_length)) =
      .ok ([], .ok 0) := rfl

/-- Claim C8, amended: decoding does not validate the operations string.
The only failure `reference_length` can produce is a value error (there is
no dedicated malformed-operations error); the empty string yields 0 without
error; a non-alternating string fails only when a token at odd index other
than I, S, H, P is preceded by a letter run (as in `M5X`), and otherwise is
decoded leniently (as in `5M3`, whose trailing digits are ignored). -/
theorem reference_length_lenient :
    (∀ (cigar : List Char) (e : SamError),
      refLenE cigar = .error e → e = .valueError) ∧
    refLenE [] = .ok 0 ∧
    refLenE (("M5X").toList) = .error .valueError ∧
    refLenE (("5M3").toList) = .ok 5 :=
  ⟨fun _ _ h => refLenE_error h, rfl, rfl, rfl⟩

/-- Witness for C8: the universal part applied at the concrete failing
string `M5X`. -/
theorem reference_length_lenient_witness :
    refLenE (("M5X").toList) = .error .valueError ∧
    SamError.valueError = SamError.valueError :=
  ⟨rfl, reference_length_lenient.1 (("M5X").toList) SamError.valueError rfl⟩

/-! ### Claim C9 -/

/-- Claim C9: for a parsed record with a non-`*` operations string, if flag
bit 0x10 is set then the five-prime position is the right position and the
three-prime position is the left position; if unset, the reverse. -/
theorem five_three_prime_strand (record : List Char) (s : Sam)
    (h : Sam.init record = .ok s) (hc : s.cigar ≠ ['*']) :
    (Int.land s.flag 16 ≠ 0 →
      s.five_prime_pos = s.right_pos ∧ s.three_prime_pos = .ok s.left_pos) ∧
    (Int.land s.flag 16 = 0 →
      s.five_prime_pos = .ok s.left_pos ∧ s.three_prime_pos = s.right_pos) := by
  constructor
  · intro hb
    have hrev : s.is_reverse = true := by
      unfold Sam.is_reverse
      rw [bne_iff_ne]
      exact hb
    simp [Sam.five_prime_pos, Sam.three_prime_pos, hrev]
  · intro hb
    have hrev : s.is_reverse = false := by
      unfold Sam.is_reverse
      rw [hb]
      rfl
    simp [Sam.five_prime_pos, Sam.three_prime_pos, hrev]

/-- Witness for C9 on a reverse-strand record (flag 16) and a
forward-strand record (flag 0). -/
theorem five_three_prime_strand_witness :
    (samRev.five_prime_pos = samRev.right_pos ∧
      samRev.three_prime_pos = .ok samRev.left_pos) ∧
    (sam1.five_prime_pos = .ok sam1.left_pos ∧
      sam1.three_prime_pos = sam1.right_pos) :=
  ⟨(five_three_prime_strand lineRev samRev rfl (by decide)).1 (by decide),
   (five_three_prime_strand line1 sam1 rfl (by decide)).2 (by decide)⟩

/-! ### Claim C10 -/

/-- Claim C10: a token with exactly one colon does not fail unless its
suffix is exactly `i` or exactly `f`: the text before the colon becomes the
key and the text after it the string value; for suffix `i` or `f` the code
coerces that same suffix, which always fails. -/
theorem one_colon_token_behavior (a b : List Char) (ha : ':' ∉ a)
    (hb : ':' ∉ b) :
    (b = ['i'] → read_opt_token (a ++ ':' :: b) = .error .valueError) ∧
    (b = ['f'] → read_opt_token (a ++ ':' :: b) = .error .valueError) ∧
    (b ≠ ['i'] → b ≠ ['f'] →
      read_opt_token (a ++ ':' :: b) = .ok (a, .str b)) := by
  have ht := typeCode_one ha hb
  refine ⟨?_, ?_, ?_⟩
  · rintro rfl
    rw [read_opt_token_eq a ['i'] hb, ht]
    rfl
  · rintro rfl
    rw [read_opt_token_eq a ['f'] hb, ht]
    rfl
  · intro h1 h2
    rw [read_opt_token_eq a b hb, ht, if_neg h1, if_neg h2]

/-- Witness for C10 at the concrete token `NM:3`. -/
theorem one_colon_token_behavior_witness :
    read_opt_token (("NM").toList ++ ':' :: ['3']) =
      .ok (("NM").toList, .str ['3']) :=
  (one_colon_token_behavior (("NM").toList) ['3'] (by decide)
    (by decide)).2.2 (by decide) (by decide)

/-! ### Claim C4 -/

/-- Claim C4: for a parsed record with a non-`*` operations string whose
right position is defined, `middle_pos` is the integer nearest to the mean
of the left and right positions, with half-way ties broken to the even
integer: it is within half of the mean (`|2m − (l + r)| ≤ 1`) and even
whenever the mean is not an integer. -/
theorem middle_pos_round_half_even (record : List Char) (s : Sam) (r : Int)
    (h : Sam.init record = .ok s) (hc : s.cigar ≠ ['*'])
    (hr : s.right_pos = .ok r) :
    ∃ m, s.middle_pos = .ok m ∧ (2 * m - (s.left_pos + r)).natAbs ≤ 1 ∧
      (2 * m ≠ s.left_pos + r → m % 2 = 0) := by
  refine ⟨pyRoundHalf (r + s.left_pos), ?_, ?_, ?_⟩
  · unfold Sam.middle_pos
    rw [hr]
    rfl
  · obtain ⟨h1, _⟩ := pyRoundHalf_spec (r + s.left_pos)
    omega
  · obtain ⟨_, h2⟩ := pyRoundHalf_spec (r + s.left_pos)
    intro hne
    apply h2
    omega

/-- Witness for C4: on scenario 1 (left 100, right 109) the mean 104.5
rounds to the even value 104. -/
theorem middle_pos_round_half_even_witness :
    (∃ m, sam1.middle_pos = .ok m ∧
      (2 * m - (sam1.left_pos + 109)).natAbs ≤ 1 ∧
      (2 * m ≠ sam1.left_pos + 109 → m % 2 = 0)) ∧
    sam1.middle_pos = .ok 104 :=
  ⟨middle_pos_round_half_even line1 sam1 109 rfl (by decide) rfl, rfl⟩

/-! ### Claim C5 -/

/-- Claim C5, counterexample: for a token whose VALUE contains a colon the
key is NOT the first two colon-delimited segments — the key runs to the
last colon and only the final segment becomes the value: `XX:Z:a:b` is
stored as key `XX:Z:a` with value `b`, not key `XX:Z` with value `a:b`. -/
theorem colon_value_key_extends :
    read_opt_token (("XX:Z:a:b").toList) =
      .ok (("XX:Z:a").toList, .str ['b']) ∧
    read_opt_token (("XX:Z:a:b").toList) ≠
      .ok (("XX:Z").toList, .str (("a:b").toList)) :=
  ⟨rfl, by decide⟩

/-- Claim C5, amended: for a token `TAG:TYPE:VALUE` whose VALUE is
colon-free, the stored key is `TAG:TYPE` and the value is coerced per the
TYPE segment: to an integer for `i`, to a float for `f`, kept a string
otherwise.  (When VALUE contains colons, the key instead extends to the
last colon; see the counterexample.) -/
theorem opt_token_decode_shape (tag ty v : List Char)
    (htag : ':' ∉ tag) (hty : ':' ∉ ty) (hv : ':' ∉ v) :
    (ty = ['i'] → read_opt_token (tag ++ ':' :: ty ++ ':' :: v) =
        (match pyInt v with
         | some n => .ok (tag ++ ':' :: ty, .int n)
         | none => .error .valueError)) ∧
    (ty = ['f'] → read_opt_token (tag ++ ':' :: ty ++ ':' :: v) =
        (match pyFloat v with
         | some q => .ok (tag ++ ':' :: ty, .float q)
         | none => .error .valueError)) ∧
    (ty ≠ ['i'] → ty ≠ ['f'] →
      read_opt_token (tag ++ ':' :: ty ++ ':' :: v) =
        .ok (tag ++ ':' :: ty, .str v)) := by
  have he : tag ++ ':' :: (ty ++ ':' :: v) = (tag ++ ':' :: ty) ++ ':' :: v := by
    simp
  have ht : typeCode ((tag ++ ':' :: ty) ++ ':' :: v) = ty := by
    rw [← he]
    exact typeCode_two v htag hty
  refine ⟨?_, ?_, ?_⟩
  · intro hty'
    rw [read_opt_token_eq _ v hv, ht, if_pos hty']
  · rintro rfl
    rw [read_opt_token_eq _ v hv, ht, if_neg (by decide), if_pos rfl]
  · intro h1 h2
    rw [read_opt_token_eq _ v hv, ht, if_neg h1, if_neg h2]

/-- Witness for C5: the token `NM:i:3` under the amended theorem, and the
concrete scenario-2 decode
`NM:i:3, AS:f:12.5 ↦ {NM:i ↦ 3, AS:f ↦ 12.5}` (12.5 is `⟨125, 10⟩`). -/
theorem opt_token_decode_shape_witness :
    read_opt_token (("NM").toList ++ ':' :: ['i'] ++ ':' :: ['3']) =
      (match pyInt ['3'] with
       | some n => .ok (("NM").toList ++ ':' :: ['i'], .int n)
       | none => .error .valueError) ∧
    read_opt [("NM:i:3").toList, ("AS:f:12.5").toList] [] =
      .ok [(("NM:i").toList, .int 3), (("AS:f").toList, .float ⟨125, 10⟩)] :=
  ⟨(opt_token_decode_shape (("NM").toList) ['i'] ['3'] (by decide) (by decide)
      (by decide)).1 rfl, rfl⟩

/-! ### Claim C6 -/

/-- Claim C6, counterexample: a token with exactly one colon — fewer than
the two the claim requires — does not fail: `NM:3` decodes to the mapping
`{NM ↦ "3"}`. -/
theorem one_colon_token_no_failure :
    read_opt_token (("NM:3").toList) = .ok (("NM").toList, .str ['3']) ∧
    read_opt [("NM:3").toList] [] = .ok [(("NM").toList, .str ['3'])] :=
  ⟨rfl, rfl⟩

/-- Claim C6, amended: decoding a trailing token fails (always with the
value-error kind) exactly when the token contains NO colon at all, or when
its declared type segment is `i` or `f` and the numeric coercion of the
text after the last colon fails. -/
theorem read_opt_token_error_iff :
    (∀ t : List Char, ':' ∉ t → read_opt_token t = .error .valueError) ∧
    (∀ a b : List Char, ':' ∉ b →
      (read_opt_token (a ++ ':' :: b) = .error .valueError ↔
        (typeCode (a ++ ':' :: b) = ['i'] ∧ pyInt b = none) ∨
        (typeCode (a ++ ':' :: b) = ['f'] ∧ pyFloat b = none))) := by
  constructor
  · exact fun t ht => read_opt_token_no_colon ht
  · intro a b hb
    rw [read_opt_token_eq a b hb]
    by_cases hi : typeCode (a ++ ':' :: b) = ['i']
    · rw [if_pos hi]
      rcases hp : pyInt b with _ | n
      · simp [hi, hp]
      · simp [hi, hp]
    · rw [if_neg hi]
      by_cases hf : typeCode (a ++ ':' :: b) = ['f']
      · rw [if_pos hf]
        rcases hp : pyFloat b with _ | q
        · simp [hi, hf, hp]
        · simp [hi, hf, hp]
      · rw [if_neg hf]
        simp [hi, hf]

/-- Witness for C6: the no-colon token `NM` fails with the value error. -/
theorem read_opt_token_error_iff_witness :
    read_opt_token ['N', 'M'] = .error .valueError :=
  read_opt_token_error_iff.1 ['N', 'M'] (by decide)

/-! ### Claim C2 -/

/-- Tab-joined field list (the textual form of a record with the given
fields and no optional block). -/
def tabJoin : List (List Char) → List Char
  | [] => []
  | [x] => x
  | x :: xs => x ++ '\t' :: tabJoin xs

theorem splitTab_tabJoin :
    ∀ fs : List (List Char), fs ≠ [] → (∀ x ∈ fs, '\t' ∉ x) →
      splitTab (tabJoin fs) = fs := by
  intro fs
  induction fs with
  | nil => intro h; exact absurd rfl h
  | cons x xs ih =>
    intro _ hmem
    cases xs with
    | nil =>
      show splitTab (tabJoin [x]) = [x]
      exact splitOnChar_not_mem (hmem x (by simp))
    | cons y ys =>
      show splitTab (x ++ '\t' :: tabJoin (y :: ys)) = x :: y :: ys
      unfold splitTab
      rw [splitOnChar_append _ (hmem x (by simp))]
      rw [show splitOnChar '\t' (tabJoin (y :: ys)) =
        splitTab (tabJoin (y :: ys)) from rfl]
      rw [ih (by simp) (fun z hz => hmem z (by simp [hz]))]

theorem intRepr_no_tab (n : Int) : '\t' ∉ intRepr n := by
  unfold intRepr
  intro hmem
  by_cases hn : n < 0
  · rw [if_pos hn] at hmem
    rcases List.mem_cons.mp hmem with h | h
    · exact absurd h (by decide)
    · exact absurd (natRepr_digits n.natAbs '\t' h) (by decide)
  · rw [if_neg hn] at hmem
    exact absurd (natRepr_digits n.natAbs '\t' hmem) (by decide)

/-- Scenario-1 line with a trailing newline. -/
def line1n : List Char := line1 ++ ['\n']

/-- Claim C2, counterexample: the constructor does NOT strip a trailing
newline — it stays inside the quality field, so round-tripping a line that
ends in a newline does not produce the newline-stripped line plus a tab and
a newline: the embedded newline survives before the appended tab. -/
theorem newline_not_stripped :
    (Sam.init line1n).map Sam.get_record =
      .ok (line1 ++ '\n' :: '\t' :: ['\n']) ∧
    (Sam.init line1n).map Sam.get_record ≠ .ok (line1 ++ '\t' :: ['\n']) :=
  ⟨rfl, by decide⟩

/-- Claim C2, amended: for an 11-field line with tab-free fields, canonical
integer fields and NO trailing newline, parsing succeeds with exactly those
fields and no optional fields, and serializing reproduces the line plus a
trailing tab and newline. -/
theorem init_get_record_roundtrip
    (q rn cg rx sq ql : List Char) (f lp mq pn tl : Int)
    (hq : '\t' ∉ q) (hrn : '\t' ∉ rn) (hcg : '\t' ∉ cg) (hrx : '\t' ∉ rx)
    (hsq : '\t' ∉ sq) (hql : '\t' ∉ ql) :
    Sam.init (tabJoin [q, intRepr f, rn, intRepr lp, intRepr mq, cg, rx,
        intRepr pn, intRepr tl, sq, ql]) =
      .ok { qname := q, flag := f, rname := rn, left_pos := lp, mapq := mq,
            cigar := cg, rnext := rx, pnext := pn, tlen := tl, seq := sq,
            qual := ql, optional := [] } ∧
    Sam.get_record (⟨q, f, rn, lp, mq, cg, rx, pn, tl, sq, ql, []⟩ : Sam) =
      tabJoin [q, intRepr f, rn, intRepr lp, intRepr mq, cg, rx, intRepr pn,
        intRepr tl, sq, ql] ++ '\t' :: ['\n'] := by
  have hmem : ∀ x ∈ [q, intRepr f, rn, intRepr lp, intRepr mq, cg, rx,
      intRepr pn, intRepr tl, sq, ql], '\t' ∉ x := by
    intro x hx
    simp only [List.mem_cons, List.not_mem_nil, or_false] at hx
    rcases hx with rfl | rfl | rfl | rfl | rfl | rfl | rfl | rfl | rfl | rfl | rfl
    exacts [hq, intRepr_no_tab f, hrn, intRepr_no_tab lp, intRepr_no_tab mq,
      hcg, hrx, intRepr_no_tab pn, intRepr_no_tab tl, hsq, hql]
  constructor
  · unfold Sam.init
    rw [splitTab_tabJoin _ (by simp) hmem]
    rw [initFields_full]
    rw [pyIntE_intRepr f, pyIntE_intRepr lp, pyIntE_intRepr mq,
      pyIntE_intRepr pn, pyIntE_intRepr tl]
    simp [read_opt]
  · simp [Sam.get_record, tabJoin, get_opt, List.append_assoc]

/-- Witness for C2 at the scenario-1 fields. -/
theorem init_get_record_roundtrip_witness :
    Sam.init (tabJoin [("read1").toList, intRepr 0, ("chr1").toList,
        intRepr 100, intRepr 60, ("10M").toList, ['*'], intRepr 0, intRepr 0,
        ("ACGTACGTAC").toList, ("**********").toList]) =
      .ok { qname := ("read1").toList, flag := 0, rname := ("chr1").toList,
            left_pos := 100, mapq := 60, cigar := ("10M").toList,
            rnext := ['*'], pnext := 0, tlen := 0,
            seq := ("ACGTACGTAC").toList, qual := ("**********").toList,
            optional := [] } ∧
    Sam.get_record (⟨("read1").toList, 0, ("chr1").toList, 100, 60,
        ("10M").toList, ['*'], 0, 0, ("ACGTACGTAC").toList,
        ("**********").toList, []⟩ : Sam) =
      tabJoin [("read1").toList, intRepr 0, ("chr1").toList, intRepr 100,
        intRepr 60, ("10M").toList, ['*'], intRepr 0, intRepr 0,
        ("ACGTACGTAC").toList, ("**********").toList] ++ '\t' :: ['\n'] :=
  init_get_record_roundtrip ("read1").toList ("chr1").toList ("10M").toList
    ['*'] ("ACGTACGTAC").toList ("**********").toList 0 100 60 0 0
    (by decide) (by decide) (by decide) (by decide) (by decide) (by decide)

/-! ### Claim C7 -/

theorem pyIntE_none {s : List Char} (h : pyInt s = none) :
    pyIntE s = .error .valueError := by
  unfold pyIntE
  rw [h]

theorem pyIntE_some {s : List Char} {n : Int} (h : pyInt s = some n) :
    pyIntE s = .ok n := by
  unfold pyIntE
  rw [h]

theorem initFields_len0 : initFields [] = .error .indexError := rfl

theorem initFields_len1 (a0 : List Char) :
    initFields [a0] = .error .indexError := rfl

theorem initFields_len2 (a0 a1 : List Char) :
    initFields [a0, a1] = (pyIntE a1 >>= fun _ => .error .indexError) := rfl

theorem initFields_len3 (a0 a1 a2 : List Char) :
    initFields [a0, a1, a2] =
      (pyIntE a1 >>= fun _ => .error .indexError) := rfl

theorem initFields_len4 (a0 a1 a2 a3 : List Char) :
    initFields [a0, a1, a2, a3] =
      (pyIntE a1 >>= fun _ => pyIntE a3 >>= fun _ => .error .indexError) := rfl

theorem initFields_len5 (a0 a1 a2 a3 a4 : List Char) :
    initFields [a0, a1, a2, a3, a4] =
      (pyIntE a1 >>= fun _ => pyIntE a3 >>= fun _ => pyIntE a4 >>= fun _ =>
        .error .indexError) := rfl

theorem initFields_len6 (a0 a1 a2 a3 a4 a5 : List Char) :
    initFields [a0, a1, a2, a3, a4, a5] =
      (pyIntE a1 >>= fun _ => pyIntE a3 >>= fun _ => pyIntE a4 >>= fun _ =>
        .error .indexError) := rfl

theorem initFields_len7 (a0 a1 a2 a3 a4 a5 a6 : List Char) :
    initFields [a0, a1, a2, a3, a4, a5, a6] =
      (pyIntE a1 >>= fun _ => pyIntE a3 >>= fun _ => pyIntE a4 >>= fun _ =>
        .error .indexError) := rfl

theorem initFields_len8 (a0 a1 a2 a3 a4 a5 a6 a7 : List Char) :
    initFields [a0, a1, a2, a3, a4, a5, a6, a7] =
      (pyIntE a1 >>= fun _ => pyIntE a3 >>= fun _ => pyIntE a4 >>= fun _ =>
        pyIntE a7 >>= fun _ => .error .indexError) := rfl

theorem initFields_len9 (a0 a1 a2 a3 a4 a5 a6 a7 a8 : List Char) :
    initFields [a0, a1, a2, a3, a4, a5, a6, a7, a8] =
      (pyIntE a1 >>= fun _ => pyIntE a3 >>= fun _ => pyIntE a4 >>= fun _ =>
        pyIntE a7 >>= fun _ => pyIntE a8 >>= fun _ =>
        .error .indexError) := rfl

theorem initFields_len10 (a0 a1 a2 a3 a4 a5 a6 a7 a8 a9 : List Char) :
    initFields [a0, a1, a2, a3, a4, a5, a6, a7, a8, a9] =
      (pyIntE a1 >>= fun _ => pyIntE a3 >>= fun _ => pyIntE a4 >>= fun _ =>
        pyIntE a7 >>= fun _ => pyIntE a8 >>= fun _ =>
        .error .indexError) := rfl

theorem initFields_indexError_iff (r : List (List Char)) :
    initFields r = .error .indexError ↔
      (r.length < 11 ∧ ∀ j ∈ [1, 3, 4, 7, 8], ∀ s, r.get? j = some s →
        pyInt s ≠ none) := by
  rcases r with _ | ⟨a0, r⟩
  · simp [initFields_len0]
  rcases r with _ | ⟨a1, r⟩
  · simp [initFields_len1]
  rcases r with _ | ⟨a2, r⟩
  · rw [initFields_len2]
    rcases hp1 : pyInt a1 with _ | n1
    · rw [pyIntE_none hp1]
      simp [hp1]
    · rw [pyIntE_some hp1]
      simp [hp1]
  rcases r with _ | ⟨a3, r⟩
  · rw [initFields_len3]
    rcases hp1 : pyInt a1 with _ | n1
    · rw [pyIntE_none hp1]
      simp [hp1]
    · rw [pyIntE_some hp1]
      simp [hp1]
  rcases r with _ | ⟨a4, r⟩
  · rw [initFields_len4]
    rcases hp1 : pyInt a1 with _ | n1
    · rw [pyIntE_none hp1]
      simp [hp1]
    · rw [pyIntE_some hp1]
      rcases hp3 : pyInt a3 with _ | n3
      · rw [pyIntE_none hp3]
        simp [hp1, hp3]
      · rw [pyIntE_some hp3]
        simp [hp1, hp3]
  rcases r with _ | ⟨a5, r⟩
  · rw [initFields_len5]
    rcases hp1 : pyInt a1 with _ | n1
    · rw [pyIntE_none hp1]
      simp [hp1]
    · rw [pyIntE_some hp1]
      rcases hp3 : pyInt a3 with _ | n3
      · rw [pyIntE_none hp3]
        simp [hp1, hp3]
      · rw [pyIntE_some hp3]
        rcases hp4 : pyInt a4 with _ | n4
        · rw [pyIntE_none hp4]
          simp [hp1, hp3, hp4]
        · rw [pyIntE_some hp4]
          simp [hp1, hp3, hp4]
  rcases r with _ | ⟨a6, r⟩
  · rw [initFields_len6]
    rcases hp1 : pyInt a1 with _ | n1
    · rw [pyIntE_none hp1]
      simp [hp1]
    · rw [pyIntE_some hp1]
      rcases hp3 : pyInt a3 with _ | n3
      · rw [pyIntE_none hp3]
        simp [hp1, hp3]
      · rw [pyIntE_some hp3]
        rcases hp4 : pyInt a4 with _ | n4
        · rw [pyIntE_none hp4]
          simp [hp1, hp3, hp4]
        · rw [pyIntE_some hp4]
          simp [hp1, hp3, hp4]
  rcases r with _ | ⟨a7, r⟩
  · rw [initFields_len7]
    rcases hp1 : pyInt a1 with _ | n1
    · rw [pyIntE_none hp1]
      simp [hp1]
    · rw [pyIntE_some hp1]
      rcases hp3 : pyInt a3 with _ | n3
      · rw [pyIntE_none hp3]
        simp [hp1, hp3]
      · rw [pyIntE_some hp3]
        rcases hp4 : pyInt a4 with _ | n4
        · rw [pyIntE_none hp4]
          simp [hp1, hp3, hp4]
        · rw [pyIntE_some hp4]
          simp [hp1, hp3, hp4]
  rcases r with _ | ⟨a8, r⟩
  · rw [initFields_len8]
    rcases hp1 : pyInt a1 with _ | n1
    · rw [pyIntE_none hp1]
      simp [hp1]
    · rw [pyIntE_some hp1]
      rcases hp3 : pyInt a3 with _ | n3
      · rw [pyIntE_none hp3]
        simp [hp1, hp3]
      · rw [pyIntE_some hp3]
        rcases hp4 : pyInt a4 with _ | n4
        · rw [pyIntE_none hp4]
          simp [hp1, hp3, hp4]
        · rw [pyIntE_some hp4]
          rcases hp7 : pyInt a7 with _ | n7
          · rw [pyIntE_none hp7]
            simp [hp1, hp3, hp4, hp7]
          · rw [pyIntE_some hp7]
            simp [hp1, hp3, hp4, hp7]
  rcases r with _ | ⟨a9, r⟩
  · rw [initFields_len9]
    rcases hp1 : pyInt a1 with _ | n1
    · rw [pyIntE_none hp1]
      simp [hp1]
    · rw [pyIntE_some hp1]
      rcases hp3 : pyInt a3 with _ | n3
      · rw [pyIntE_none hp3]
        simp [hp1, hp3]
      · rw [pyIntE_some hp3]
        rcases hp4 : pyInt a4 with _ | n4
        · rw [pyIntE_none hp4]
          simp [hp1, hp3, hp4]
        · rw [pyIntE_some hp4]
          rcases hp7 : pyInt a7 with _ | n7
          · rw [pyIntE_none hp7]
            simp [hp1, hp3, hp4, hp7]
          · rw [pyIntE_some hp7]
            rcases hp8 : pyInt a8 with _ | n8
            · rw [pyIntE_none hp8]
              simp [hp1, hp3, hp4, hp7, hp8]
            · rw [pyIntE_some hp8]
              simp [hp1, hp3, hp4, hp7, hp8]
  rcases r with _ | ⟨a10, r⟩
  · rw [initFields_len10]
    rcases hp1 : pyInt a1 with _ | n1
    · rw [pyIntE_none hp1]
      simp [hp1]
    · rw [pyIntE_some hp1]
      rcases hp3 : pyInt a3 with _ | n3
      · rw [pyIntE_none hp3]
        simp [hp1, hp3]
      · rw [pyIntE_some hp3]
        rcases hp4 : pyInt a4 with _ | n4
        · rw [pyIntE_none hp4]
          simp [hp1, hp3, hp4]
        · rw [pyIntE_some hp4]
          rcases hp7 : pyInt a7 with _ | n7
          · rw [pyIntE_none hp7]
            simp [hp1, hp3, hp4, hp7]
          · rw [pyIntE_some hp7]
            rcases hp8 : pyInt a8 with _ | n8
            · rw [pyIntE_none hp8]
              simp [hp1, hp3, hp4, hp7, hp8]
            · rw [pyIntE_some hp8]
              simp [hp1, hp3, hp4, hp7, hp8]
  · rw [initFields_full]
    have hlen : ¬ ((a0 :: a1 :: a2 :: a3 :: a4 :: a5 :: a6 :: a7 :: a8 ::
        a9 :: a10 :: r).length < 11) := by
      simp
    refine iff_of_false ?_ (fun hr => hlen hr.1)
    intro h
    rcases hp1 : pyInt a1 with _ | n1
    · rw [pyIntE_none hp1] at h
      simp at h
    rw [pyIntE_some hp1] at h
    simp only [except_ok_bind] at h
    rcases hp3 : pyInt a3 with _ | n3
    · rw [pyIntE_none hp3] at h
      simp at h
    rw [pyIntE_some hp3] at h
    simp only [except_ok_bind] at h
    rcases hp4 : pyInt a4 with _ | n4
    · rw [pyIntE_none hp4] at h
      simp at h
    rw [pyIntE_some hp4] at h
    simp only [except_ok_bind] at h
    rcases hp7 : pyInt a7 with _ | n7
    · rw [pyIntE_none hp7] at h
      simp at h
    rw [pyIntE_some hp7] at h
    simp only [except_ok_bind] at h
    rcases hp8 : pyInt a8 with _ | n8
    · rw [pyIntE_none hp8] at h
      simp at h
    rw [pyIntE_some hp8] at h
    simp only [except_ok_bind] at h
    rcases hro : read_opt r [] with e | d
    · rw [hro] at h
      simp at h
      have hv := read_opt_error r [] e hro
      rw [hv] at h
      exact absurd h (by decide)
    · rw [hro] at h
      simp at h

/-- Claim C7, counterexample: a line with fewer than 11 tab-separated
tokens need not raise the record (index) error: in `a\tx` the flag field
`x` fails integer coercion first, so the failure is the value error. -/
theorem short_line_value_error :
    Sam.init (("a\tx").toList) = .error .valueError ∧
    (splitTab (("a\tx").toList)).length = 2 ∧
    Sam.init (("a\tx").toList) ≠ .error .indexError :=
  ⟨rfl, rfl, by decide⟩

/-- Claim C7, amended: parsing raises the record (index) error exactly when
the line has fewer than 11 tab-separated tokens AND every integer
positional field among the tokens present (indices 1, 3, 4, 7, 8) parses as
an integer — a malformed integer field raises the value error before the
missing index is reached.  In particular the well-formed 8-field line of
scenario 3 raises the index error. -/
theorem init_index_error_iff :
    (∀ record : List Char,
      Sam.init record = .error .indexError ↔
        ((splitTab record).length < 11 ∧
          ∀ j ∈ [1, 3, 4, 7, 8], ∀ s, (splitTab record).get? j = some s →
            pyInt s ≠ none)) ∧
    Sam.init (("r\t0\tchr1\t100\t60\t10M\t*\t0").toList) =
      .error .indexError := by
  constructor
  · intro record
    unfold Sam.init
    exact initFields_indexError_iff (splitTab record)
  · rfl

/-- Witness for C7: the one-token line `a` has fewer than 11 fields with
all present integer fields (none) well-formed, so the iff yields the index
error. -/
theorem init_index_error_iff_witness :
    Sam.init (("a").toList) = .error .indexError :=
  (init_index_error_iff.1 (("a").toList)).mpr ⟨by decide, by decide⟩

end PyCommonTools
